import Mathlib

/-!
Verification of the `knowledgebase` repository against its specification.

The development shallowly embeds the Python source:

* `src/knowledgebase/processors/docx_processor.py` and
  `src/knowledgebase/processors/pdf_processor.py` — the `_split_text`
  chunkers (text is `List Char`, so `len`/slicing match Python);
* `src/knowledgebase/processors/__init__.py` — the processor registry;
* `src/knowledgebase/storage/knowledge_store.py` — `add_document_chunks`,
  `get_all_documents`, `delete_document`, over an explicit record list
  standing for the ChromaDB collection;
* `src/knowledgebase/qa/qa_system.py` — `answer_question` (with an
  explicit LLM-call counter), the insight parser of `extract_insights`
  and the test-case parser of `generate_tests`.

Possibly diverging loops are embedded with explicit fuel and an `Option`
result: `none` means the fuel ran out, and a `none`-for-every-fuel theorem
is a genuine non-termination result for the Python loop.
-/

namespace Knowledgebase

/-- A Python value as it appears in chunk metadata: scalars
(`str`, `int`, `bool`) or a nested (non-scalar) structure. -/
inductive PyValue where
  | str (s : String)
  | int (n : Int)
  | bool (b : Bool)
  | pylist (items : List String)
  deriving Repr, DecidableEq

/-- A Python value is "scalar" when it is not a nested structure. -/
def PyValue.isScalar : PyValue → Bool
  | .pylist _ => false
  | _ => true

/-- A Python dict with string keys: association list, first binding wins
(Python dicts have unique keys; the embedding only builds such lists). -/
abbrev PyDict := List (String × PyValue)

/-- `d.get(k)` returning `none` when the key is absent. -/
def dictGet (d : PyDict) (k : String) : Option PyValue :=
  (d.find? (fun kv => kv.1 = k)).map (·.2)

/-- `d.get(k, default)`. -/
def dictGetD (d : PyDict) (k : String) (default : PyValue) : PyValue :=
  (dictGet d k).getD default

/-! ## The chunking loop of `_split_text` (docx_processor.py / pdf_processor.py)

The Python loop is

    chunks = []
    start = 0
    while start < len(text):
        end = start + chunk_size
        chunk = text[start:end]
        chunks.append(chunk)
        start = end - chunk_overlap

embedded with fuel; `text[start:end]` is `(text.drop start).take chunk_size`
(Python slices clip at the end of the string). The step
`start = start + chunk_size - chunk_overlap` uses `Nat` subtraction, which
agrees with Python whenever `chunk_overlap ≤ start + chunk_size`; in
particular everywhere the theorems below evaluate it. -/

/-- The `while start < len(text)` loop of `_split_text`, with fuel.
`none` = fuel exhausted. -/
def splitLoop (chunk_size chunk_overlap : Nat) (text : List Char) :
    Nat → Nat → Option (List (List Char))
  | 0, _ => none
  | fuel + 1, start =>
    if start < text.length then
      match splitLoop chunk_size chunk_overlap text fuel
          (start + chunk_size - chunk_overlap) with
      | none => none
      | some rest => some ((text.drop start).take chunk_size :: rest)
    else
      some []

namespace PDFProcessor

/-- `PDFProcessor._split_text` (pdf_processor.py, lines 87–112): no
overlap validation, then the single-chunk shortcut, then the loop.
Fuel `text.length + 1` covers every terminating run of the Python loop,
since each iteration requires `start < len(text)` and, when the loop
terminates at all, advances `start` by at least one. -/
def split_text (chunk_size chunk_overlap : Nat) (text : List Char) :
    Option (List (List Char)) :=
  if text.length ≤ chunk_size then some [text]
  else splitLoop chunk_size chunk_overlap text (text.length + 1) 0

end PDFProcessor

namespace DOCXProcessor

/-- `DOCXProcessor._split_text` (docx_processor.py, lines 91–121): first
`if chunk_overlap >= chunk_size: chunk_overlap = chunk_size // 2`, then
identical to the PDF splitter. -/
def split_text (chunk_size chunk_overlap : Nat) (text : List Char) :
    Option (List (List Char)) :=
  let chunk_overlap := if chunk_size ≤ chunk_overlap then chunk_size / 2 else chunk_overlap
  if text.length ≤ chunk_size then some [text]
  else splitLoop chunk_size chunk_overlap text (text.length + 1) 0

end DOCXProcessor

/-- Re-gluing chunks: keep the first chunk whole and drop the first
`overlap` characters of every later chunk, then concatenate. -/
def joinOverlap (overlap : Nat) : List (List Char) → List Char
  | [] => []
  | c :: rest => c ++ (rest.map (List.drop overlap)).flatten

/-! ## Data model (processors/base.py, storage/knowledge_store.py) -/

/-- `DocumentChunk` (base.py): content, metadata dict, optional
`page_number` and `chunk_index` (Python `None` ↦ `Option.none`). -/
structure DocumentChunk where
  content : List Char
  metadata : PyDict
  page_number : Option Int := none
  chunk_index : Option Int := none

/-- A record in the ChromaDB collection: id, document text, metadata.
(The embedding vector is produced by the external embedding capability
and plays no role in the verified claims.) -/
structure StoredRecord where
  id : String
  content : List Char
  metadata : PyDict
  deriving DecidableEq

/-- The metadata dict that `KnowledgeStore.add_document_chunks`
(knowledge_store.py, lines 76–89) builds for one chunk: the four fixed
keys are always present via `chunk.metadata.get(key, default)`;
`page_number` is added only when truthy (Python: `if chunk.page_number:`,
so `None` and `0` are both skipped) and `chunk_index` only when not
`None`. -/
def prepare_metadata (chunk : DocumentChunk) : PyDict :=
  [("filename", dictGetD chunk.metadata "filename" (.str "")),
   ("file_path", dictGetD chunk.metadata "file_path" (.str "")),
   ("file_extension", dictGetD chunk.metadata "file_extension" (.str "")),
   ("chunk_type", dictGetD chunk.metadata "chunk_type" (.str "text"))]
  ++ (match chunk.page_number with
      | some p => if p ≠ 0 then [("page_number", .int p)] else []
      | none => [])
  ++ (match chunk.chunk_index with
      | some i => [("chunk_index", .int i)]
      | none => [])

/-- `KnowledgeStore.add_document_chunks` (knowledge_store.py, lines
52–101): one record per chunk, id freshly generated by `uuid.uuid4()`
(modelled as a supplied list of ids, zipped with the chunks), `documents`
entry the chunk's content verbatim, metadata via `prepare_metadata`.
The function raises nothing itself; embedding and insertion are external
calls. -/
def add_document_chunks (ids : List String) (chunks : List DocumentChunk) :
    List StoredRecord :=
  List.zipWith (fun i c => ⟨i, c.content, prepare_metadata c⟩) ids chunks

/-- A total Boolean comparison used to model Python's `sorted` on the
collected filename values. The store only ever holds `str` filenames
(see `prepare_metadata`), where this is exactly string order; on
heterogeneous values Python would raise, and the order chosen here is
immaterial to every theorem below (only membership is used). -/
def pyValueLE (a b : PyValue) : Bool :=
  match a, b with
  | .str x, .str y => decide (x ≤ y)
  | _, _ => true

/-- `KnowledgeStore.get_all_documents` (knowledge_store.py, lines
145–164): collect `metadata["filename"]` of every record that has the
key, as a set, and return it sorted. -/
def get_all_documents (store : List StoredRecord) : List PyValue :=
  ((store.filterMap (fun r => dictGet r.metadata "filename")).dedup).mergeSort
    pyValueLE

/-- Does a record match Chroma's `where={"filename": filename}` filter? -/
def filenameMatches (filename : String) (r : StoredRecord) : Bool :=
  dictGet r.metadata "filename" = some (.str filename)

/-- `KnowledgeStore.delete_document` (knowledge_store.py, lines 166–187):
`collection.get(where={"filename": filename})` collects the ids of the
matching records; if there are none, return 0 without deleting;
otherwise `collection.delete(ids=...)` removes the records with those
ids and the count of ids is returned. Returns (new store, count). -/
def delete_document (store : List StoredRecord) (filename : String) :
    List StoredRecord × Nat :=
  let result_ids := (store.filter (filenameMatches filename)).map (·.id)
  if result_ids.isEmpty then (store, 0)
  else (store.filter (fun r => ¬ r.id ∈ result_ids), result_ids.length)

/-! ## Processor registry (processors/__init__.py) -/

/-- A path as the registry sees it (pathlib.Path): the pieces the
processors inspect. -/
structure DocPath where
  name : String
  suffix : String
  deriving DecidableEq

/-- A registered document processor: the capability pair
`can_process` / `process` of the `DocumentProcessor` interface
(base.py). -/
structure Processor where
  can_process : DocPath → Bool
  process : DocPath → List DocumentChunk

/-- Errors raised by `DocumentProcessorFactory.process_document`:
`FileNotFoundError` when the path does not exist, `ValueError`
("No processor found for file type") when no processor matches. -/
inductive ProcessDocumentError where
  | fileNotFound
  | noProcessorFound
  deriving DecidableEq

/-- `DocumentProcessorFactory.get_processor` (processors/__init__.py,
lines 29–42): the first registered processor whose `can_process`
returns true, else `None`. -/
def get_processor (processors : List Processor) (p : DocPath) :
    Option Processor :=
  processors.find? (fun proc => proc.can_process p)

/-- `DocumentProcessorFactory.process_document` (processors/__init__.py,
lines 44–69), with the filesystem existence check supplied as the
external collaborator `fs_exists`. -/
def process_document (fs_exists : DocPath → Bool)
    (processors : List Processor) (p : DocPath) :
    Except ProcessDocumentError (List DocumentChunk) :=
  if fs_exists p = false then .error .fileNotFound
  else
    match get_processor processors p with
    | none => .error .noProcessorFound
    | some proc => .ok (proc.process p)

/-! ## QA layer (qa/qa_system.py) -/

/-- Python `str.split("\n")`: every segment, including empty ones;
`"".split("\n") == [""]`. -/
def split_lines : List Char → List (List Char)
  | [] => [[]]
  | c :: cs =>
    if c = '\n' then [] :: split_lines cs
    else
      match split_lines cs with
      | [] => [[c]]
      | l :: ls => (c :: l) :: ls

/-- Python `str.strip()`: whitespace removed from both ends. -/
def pyStrip (s : List Char) : List Char :=
  ((s.dropWhile Char.isWhitespace).reverse.dropWhile Char.isWhitespace).reverse

/-- One search result as `KnowledgeStore.search` formats it; the
`distance` field plays no role in the verified claims. -/
structure SearchResult where
  content : List Char
  metadata : PyDict
  deriving DecidableEq

/-- One entry of the `sources` list built by `answer_question`:
`metadata.get("filename", "Unknown")` plus the optional
`page_number` / `chunk_index` (`dict.get` without default ↦ `Option`). -/
structure SourceInfo where
  filename : PyValue
  page_number : Option PyValue
  chunk_index : Option PyValue
  deriving DecidableEq

/-- The dictionary `answer_question` returns. -/
structure QAResult where
  answer : List Char
  sources : List SourceInfo
  context_used : List (List Char)
  deriving DecidableEq

/-- The fixed no-information answer of `answer_question`
(qa_system.py, line 77). -/
def no_info_answer : List Char :=
  "I don\x27t have any relevant information in the knowledge base to answer this question.".toList

/-- The system prompt template (qa_system.py, lines 30–54) around its
`{context}` slot. -/
def qa_prompt_head : List Char :=
  ("You are a helpful assistant that answers questions based on the provided context from process documents.\n\nThe documents may contain:\n- Functional specifications\n- Technical specifications\n- Working instructions\n- Hebrew text and English text\n- References to images and diagrams\n\nGuidelines:\n1. Answer based ONLY on the provided context\n2. If the context doesn\x27t contain the answer, say so clearly\n3. Support both Hebrew and English questions\n4. Provide detailed, accurate answers\n5. Reference specific documents or sections when relevant\n6. If asked about images or diagrams, mention that they exist in the documents\n\nContext:\n").toList

/-- Between the `{context}` and `{question}` slots of the template. -/
def qa_prompt_mid : List Char := "\n\nQuestion: ".toList

/-- After the `{question}` slot of the template. -/
def qa_prompt_tail : List Char := "\n\nAnswer:".toList

/-- `self.system_prompt.format(context=..., question=...)`. -/
def build_qa_prompt (context question : List Char) : List Char :=
  qa_prompt_head ++ context ++ qa_prompt_mid ++ question ++ qa_prompt_tail

/-- One context part: `f"[Document {idx + 1}]: {content}"`. -/
def document_label (idx : Nat) (content : List Char) : List Char :=
  "[Document ".toList ++ (Nat.repr (idx + 1)).toList ++ "]: ".toList ++ content

/-- One `context_used` entry (qa_system.py, lines 115–118):
`r["content"][:200] + "..." if len(r["content"]) > 200 else r["content"]`. -/
def truncate_excerpt (content : List Char) : List Char :=
  if 200 < content.length then content.take 200 ++ "...".toList else content

/-- One `sources` entry (qa_system.py, lines 92–97). -/
def make_source_info (metadata : PyDict) : SourceInfo :=
  { filename := dictGetD metadata "filename" (.str "Unknown"),
    page_number := dictGet metadata "page_number",
    chunk_index := dictGet metadata "chunk_index" }

/-- `QASystem.answer_question` (qa_system.py, lines 56–119), with the
store's search results and the completion capability `llm` supplied
explicitly. The second component counts the completion-capability
invocations performed: the empty-result branch returns the fixed answer
without building a prompt or touching `llm`; the other branch builds
the context block, fills the template and calls `llm` once. -/
def answer_question (llm : List Char → List Char) (question : List Char)
    (search_results : List SearchResult) : QAResult × Nat :=
  if search_results.isEmpty then
    ({ answer := no_info_answer, sources := [], context_used := [] }, 0)
  else
    let context_parts :=
      search_results.enum.map (fun p => document_label p.1 p.2.content)
    let sources := search_results.map (fun r => make_source_info r.metadata)
    let context := List.intercalate "\n\n".toList context_parts
    let prompt := build_qa_prompt context question
    let answer := llm prompt
    ({ answer := answer, sources := sources,
       context_used := search_results.map (fun r => truncate_excerpt r.content) },
     1)

/-- The character set of `line.lstrip("0123456789.-•) ")` in
`extract_insights` (qa_system.py, line 178). -/
def insightMarkerChars : List Char := "0123456789.-•) ".toList

/-- The keep condition of `extract_insights`:
`line and (line[0].isdigit() or line.startswith("-") or line.startswith("•"))`. -/
def isInsightMarkerLine : List Char → Bool
  | [] => false
  | c :: _ => c.isDigit || c == '-' || c == '•'

/-- `line.lstrip("0123456789.-•) ").strip()`. -/
def strip_insight_marker (line : List Char) : List Char :=
  pyStrip (line.dropWhile (fun c => insightMarkerChars.contains c))

/-- The parsing loop of `QASystem.extract_insights` (qa_system.py,
lines 172–182): keep marker lines, strip the marker, drop insights that
come out empty. -/
def extract_insights_lines : List (List Char) → List (List Char)
  | [] => []
  | l :: ls =>
    let line := pyStrip l
    if isInsightMarkerLine line then
      let insight := strip_insight_marker line
      if insight.isEmpty then extract_insights_lines ls
      else insight :: extract_insights_lines ls
    else extract_insights_lines ls

/-- `extract_insights` applied to a model response: parse all lines,
then `insights[:max_insights]`. -/
def extract_insights_parse (response : List Char) (max_insights : Nat) :
    List (List Char) :=
  (extract_insights_lines (split_lines response)).take max_insights

/-- The parse *as the claim states it* (for comparison with the source
parse): exactly the marker lines, marker stripped, in line order,
truncated to `max_insights` — without the source's extra dropping of
insights that are empty after stripping. -/
def spec_extract_insights (response : List Char) (max_insights : Nat) :
    List (List Char) :=
  ((((split_lines response).map pyStrip).filter isInsightMarkerLine).map
    strip_insight_marker).take max_insights

/-- The new-record condition of `generate_tests` (qa_system.py, line
250): `"Test ID" in line or "Test Case" in line`. -/
def isTestMarkerLine (line : List Char) : Bool :=
  decide ("Test ID".toList <:+: line) || decide ("Test Case".toList <:+: line)

/-- The parsing loop of `QASystem.generate_tests` (qa_system.py, lines
244–261): `cur` is the `full_text` of the record being accumulated
(`none` while `current_test` is still the empty dict); a marker line
flushes the current record and starts a new one; other lines are
appended to the current record as `"\n" + line`, or skipped when no
record has been started. -/
def generate_tests_go (cur : Option (List Char)) :
    List (List Char) → List (List Char)
  | [] =>
    match cur with
    | some t => [t]
    | none => []
  | l :: ls =>
    let line := pyStrip l
    if isTestMarkerLine line then
      match cur with
      | some t => t :: generate_tests_go (some line) ls
      | none => generate_tests_go (some line) ls
    else
      match cur with
      | some t => generate_tests_go (some (t ++ '\n' :: line)) ls
      | none => generate_tests_go none ls

/-- `generate_tests` applied to a model response: the `full_text`
fields of the returned records, in order. -/
def generate_tests_parse (response : List Char) : List (List Char) :=
  generate_tests_go none (split_lines response)

/-- The first line of a record's `full_text`: everything before the
first newline. -/
def first_line (t : List Char) : List Char :=
  t.takeWhile (fun ch => ch ≠ '\n')

/-! ### Termination and reconstruction lemmas for the loop -/

theorem splitLoop_some (chunk_size chunk_overlap : Nat) (text : List Char)
    (hov : chunk_overlap < chunk_size) :
    ∀ fuel start, text.length - start < fuel →
      ∃ l, splitLoop chunk_size chunk_overlap text fuel start = some l := by
  intro fuel
  induction fuel with
  | zero => intro start h; omega
  | succ fuel ih =>
    intro start h
    by_cases hs : start < text.length
    · have hstep : text.length - (start + chunk_size - chunk_overlap) < fuel := by omega
      obtain ⟨l, hl⟩ := ih (start + chunk_size - chunk_overlap) hstep
      refine ⟨(text.drop start).take chunk_size :: l, ?_⟩
      simp [splitLoop, hs, hl]
    · exact ⟨[], by simp [splitLoop, hs]⟩

/-- Dropping the overlap from every chunk produced from position `start`
and concatenating yields the text from position `start + overlap` on. -/
theorem splitLoop_dropGlue (chunk_size chunk_overlap : Nat) (text : List Char)
    (hov : chunk_overlap < chunk_size) :
    ∀ fuel start l, splitLoop chunk_size chunk_overlap text fuel start = some l →
      ((l.map (List.drop chunk_overlap)).flatten) = text.drop (start + chunk_overlap) := by
  intro fuel
  induction fuel with
  | zero => intro start l h; simp [splitLoop] at h
  | succ fuel ih =>
    intro start l h
    by_cases hs : start < text.length
    · simp only [splitLoop, if_pos hs] at h
      cases hrec : splitLoop chunk_size chunk_overlap text fuel
          (start + chunk_size - chunk_overlap) with
      | none => rw [hrec] at h; exact absurd h (by simp)
      | some rest =>
        rw [hrec] at h
        injection h with h
        subst h
        have hrest := ih _ _ hrec
        have harith : start + chunk_size - chunk_overlap + chunk_overlap
            = start + chunk_size := by omega
        rw [harith] at hrest
        simp only [List.map_cons, List.flatten_cons, hrest]
        rw [List.drop_take, List.drop_drop]
        have h4 : List.drop (start + chunk_size) text
            = List.drop (chunk_size - chunk_overlap)
                (List.drop (start + chunk_overlap) text) := by
          rw [List.drop_drop]
          congr 1
          omega
        rw [h4, List.take_append_drop]
    · simp only [splitLoop, if_neg hs] at h
      injection h with h
      subst h
      simp [List.drop_eq_nil_of_le (by omega : text.length ≤ start + chunk_overlap)]

/-- **C1.** The claim asserts the overlap clamp for the `_split_text` of
*each* document processor, but `PDFProcessor._split_text` has no clamp:
with `chunk_size = 2`, `chunk_overlap = 2` and the three-character text
`"abc"`, its `while` loop recomputes `start = 0 + 2 - 2 = 0` forever, so
the loop yields no result for any amount of fuel (a genuine infinite
loop in the Python source), while `DOCXProcessor._split_text` on the
same input clamps the overlap to `2 // 2 = 1` and terminates. -/
theorem c1_pdf_split_text_diverges_without_clamp :
    (∀ fuel, splitLoop 2 2 ['a', 'b', 'c'] fuel 0 = none) ∧
    PDFProcessor.split_text 2 2 ['a', 'b', 'c'] = none ∧
    DOCXProcessor.split_text 2 2 ['a', 'b', 'c'] =
      some [['a', 'b'], ['b', 'c'], ['c']] := by
  have hloop : ∀ fuel, splitLoop 2 2 ['a', 'b', 'c'] fuel 0 = none := by
    intro fuel
    induction fuel with
    | zero => rfl
    | succ fuel ih => simp [splitLoop, ih]
  refine ⟨hloop, ?_, by decide⟩
  simp [PDFProcessor.split_text, hloop]

/-- **C2.** For `0 ≤ overlap < chunk_size`, both splitters terminate and
concatenating their chunks with the first `overlap` characters of every
chunk after the first removed reconstructs the text exactly; if
`len(text) ≤ chunk_size` the result is the single-element `[text]`. -/
theorem c2_split_text_reconstructs (text : List Char)
    (chunk_size chunk_overlap : Nat) (hov : chunk_overlap < chunk_size) :
    ∃ l, DOCXProcessor.split_text chunk_size chunk_overlap text = some l ∧
      PDFProcessor.split_text chunk_size chunk_overlap text = some l ∧
      joinOverlap chunk_overlap l = text ∧
      (text.length ≤ chunk_size → l = [text]) := by
  have hnc : ¬ chunk_size ≤ chunk_overlap := by omega
  by_cases hlen : text.length ≤ chunk_size
  · refine ⟨[text], ?_, ?_, ?_, fun _ => rfl⟩
    · simp [DOCXProcessor.split_text, hnc, hlen]
    · simp [PDFProcessor.split_text, hlen]
    · simp [joinOverlap]
  · obtain ⟨l, hl⟩ := splitLoop_some chunk_size chunk_overlap text hov
      (text.length + 1) 0 (by omega)
    refine ⟨l, ?_, ?_, ?_, fun h => absurd h hlen⟩
    · simp [DOCXProcessor.split_text, hnc, hlen, hl]
    · simp [PDFProcessor.split_text, hlen, hl]
    · have h0 : 0 < text.length := by omega
      rw [show text.length + 1 = text.length + 1 from rfl] at hl
      simp only [splitLoop, if_pos h0] at hl
      cases hrec : splitLoop chunk_size chunk_overlap text text.length
          (0 + chunk_size - chunk_overlap) with
      | none => rw [hrec] at hl; exact absurd hl (by simp)
      | some rest =>
        rw [hrec] at hl
        injection hl with hl
        subst hl
        have hglue := splitLoop_dropGlue chunk_size chunk_overlap text hov
          text.length _ _ hrec
        have harith : 0 + chunk_size - chunk_overlap + chunk_overlap
            = chunk_size := by omega
        rw [harith] at hglue
        simp only [joinOverlap, hglue, List.drop_zero]
        exact List.take_append_drop _ _

/-! ### Store lemmas -/

/-- Every record produced by `add_document_chunks` comes from some input
chunk: content verbatim, metadata via `prepare_metadata`. -/
theorem mem_add_document_chunks {ids : List String}
    {chunks : List DocumentChunk} {r : StoredRecord}
    (hr : r ∈ add_document_chunks ids chunks) :
    ∃ c ∈ chunks, r.content = c.content ∧ r.metadata = prepare_metadata c := by
  induction ids generalizing chunks with
  | nil => simp [add_document_chunks] at hr
  | cons i ids ih =>
    cases chunks with
    | nil => simp [add_document_chunks] at hr
    | cons c cs =>
      simp only [add_document_chunks, List.zipWith_cons_cons, List.mem_cons] at hr
      rcases hr with hr | hr
      · exact ⟨c, List.mem_cons_self .., by simp [hr]⟩
      · obtain ⟨c', hc', h1, h2⟩ := ih hr
        exact ⟨c', List.mem_cons_of_mem _ hc', h1, h2⟩

theorem prepare_metadata_filename (c : DocumentChunk) :
    dictGet (prepare_metadata c) "filename"
      = some (dictGetD c.metadata "filename" (.str "")) := rfl

theorem prepare_metadata_file_path (c : DocumentChunk) :
    dictGet (prepare_metadata c) "file_path"
      = some (dictGetD c.metadata "file_path" (.str "")) := rfl

theorem prepare_metadata_file_extension (c : DocumentChunk) :
    dictGet (prepare_metadata c) "file_extension"
      = some (dictGetD c.metadata "file_extension" (.str "")) := rfl

theorem prepare_metadata_chunk_type (c : DocumentChunk) :
    dictGet (prepare_metadata c) "chunk_type"
      = some (dictGetD c.metadata "chunk_type" (.str "text")) := rfl

/-- Keys other than the six fixed ones never appear in a prepared
metadata dict: everything else in the chunk's metadata is dropped. -/
theorem prepare_metadata_other_keys (c : DocumentChunk) (k : String)
    (h1 : k ≠ "filename") (h2 : k ≠ "file_path") (h3 : k ≠ "file_extension")
    (h4 : k ≠ "chunk_type") (h5 : k ≠ "page_number") (h6 : k ≠ "chunk_index") :
    dictGet (prepare_metadata c) k = none := by
  have : ∀ kv ∈ prepare_metadata c, ¬ kv.1 = k := by
    intro kv hkv
    simp only [prepare_metadata, List.mem_append, List.mem_cons,
      List.not_mem_nil, or_false] at hkv
    rcases hkv with ((h | h | h | h) | h) | h
    · rw [h]; simpa using h1.symm
    · rw [h]; simpa using h2.symm
    · rw [h]; simpa using h3.symm
    · rw [h]; simpa using h4.symm
    · rcases hp : c.page_number with _ | p <;> rw [hp] at h
      · simp at h
      · change kv ∈ (if p ≠ 0 then [("page_number", PyValue.int p)] else []) at h
        by_cases hz : p ≠ 0
        · rw [if_pos hz] at h
          simp only [List.mem_cons, List.not_mem_nil, or_false] at h
          rw [h]; simpa using h5.symm
        · rw [if_neg hz] at h; simp at h
    · rcases hi : c.chunk_index with _ | i <;> rw [hi] at h
      · simp at h
      · change kv ∈ [("chunk_index", PyValue.int i)] at h
        simp only [List.mem_cons, List.not_mem_nil, or_false] at h
        rw [h]; simpa using h6.symm
  unfold dictGet
  rw [List.find?_eq_none.mpr (by intro kv hkv; simpa using this kv hkv)]
  rfl

/-- **C3 counterexample.** Metadata is *not* copied verbatim, and a
non-scalar value is *not* rejected: a chunk carrying the extra key
`supports_hebrew` (as every DOCX chunk does) loses it in the persisted
record, and a chunk whose `filename` is a Python list is stored as-is
with no `InvalidMetadata` error. -/
theorem c3_metadata_not_verbatim_counterexample :
    (∃ r, add_document_chunks ["id0"]
        [⟨['h', 'i'],
          [("filename", .str "f.docx"), ("supports_hebrew", .bool true)],
          none, some 0⟩] = [r] ∧
      dictGet r.metadata "supports_hebrew" = none) ∧
    (∃ r, add_document_chunks ["id1"]
        [⟨['h', 'i'], [("filename", .pylist ["not", "scalar"])],
          none, none⟩] = [r] ∧
      dictGet r.metadata "filename" = some (.pylist ["not", "scalar"]) ∧
      (PyValue.pylist ["not", "scalar"]).isScalar = false) := by
  exact ⟨⟨_, rfl, rfl⟩, ⟨_, rfl, rfl, rfl⟩⟩

/-- **C3 (amended).** The persisted record's `content` is copied
verbatim, but its metadata is rebuilt, not copied: the four fixed keys
take the chunk's values (with defaults `""` / `"text"`), `page_number`
and `chunk_index` are the only other possible keys, and every other
chunk-metadata key is dropped; values are stored as-is — there is no
`InvalidMetadata` rejection (the operation is total on all inputs). -/
theorem c3_stored_record_projection (ids : List String)
    (chunks : List DocumentChunk) (r : StoredRecord)
    (hr : r ∈ add_document_chunks ids chunks) :
    ∃ c ∈ chunks,
      r.content = c.content ∧
      dictGet r.metadata "filename"
        = some (dictGetD c.metadata "filename" (.str "")) ∧
      dictGet r.metadata "file_path"
        = some (dictGetD c.metadata "file_path" (.str "")) ∧
      dictGet r.metadata "file_extension"
        = some (dictGetD c.metadata "file_extension" (.str "")) ∧
      dictGet r.metadata "chunk_type"
        = some (dictGetD c.metadata "chunk_type" (.str "text")) ∧
      ∀ k, k ≠ "filename" → k ≠ "file_path" → k ≠ "file_extension" →
        k ≠ "chunk_type" → k ≠ "page_number" → k ≠ "chunk_index" →
        dictGet r.metadata k = none := by
  obtain ⟨c, hc, hcontent, hmeta⟩ := mem_add_document_chunks hr
  refine ⟨c, hc, hcontent, ?_, ?_, ?_, ?_, ?_⟩ <;> rw [hmeta]
  · exact prepare_metadata_filename c
  · exact prepare_metadata_file_path c
  · exact prepare_metadata_file_extension c
  · exact prepare_metadata_chunk_type c
  · exact fun k => prepare_metadata_other_keys c k

/-- **C3 witness**: instantiated at a one-chunk input. -/
theorem c3_stored_record_projection_witness :
    ∃ c ∈ [(⟨['h', 'i'], [("filename", .str "a.pdf")], some 1,
        some 0⟩ : DocumentChunk)],
      ∀ r ∈ add_document_chunks ["w0"]
        [⟨['h', 'i'], [("filename", .str "a.pdf")], some 1, some 0⟩],
        r.content = c.content := by
  obtain ⟨c, hc, hcontent, -⟩ :=
    c3_stored_record_projection ["w0"]
      [⟨['h', 'i'], [("filename", .str "a.pdf")], some 1, some 0⟩]
      ⟨"w0", ['h', 'i'], prepare_metadata
        ⟨['h', 'i'], [("filename", .str "a.pdf")], some 1, some 0⟩⟩
      (by simp [add_document_chunks])
  refine ⟨c, hc, ?_⟩
  intro r hr
  obtain ⟨c', hc', h1, -⟩ := mem_add_document_chunks hr
  simp only [List.mem_singleton] at hc hc'
  rw [h1, hc', ← hc]

/-- **C4 counterexample.** A chunk whose metadata lacks a `filename` key
is persisted with `filename = ""` — the empty string — so the invariant
"every record's metadata contains a *non-empty* filename" fails. -/
theorem c4_empty_filename_counterexample :
    ∃ r, add_document_chunks ["id0"] [⟨['x'], [], none, none⟩] = [r] ∧
      dictGet r.metadata "filename" = some (.str "") ∧
      ("" : String).length = 0 := by
  exact ⟨_, rfl, rfl, rfl⟩

/-- **C4 (amended).** Every persisted record's metadata contains a
`filename` *key*; its value is the originating chunk's `filename`
metadata when present and the empty string otherwise — it is not
guaranteed non-empty. -/
theorem c4_filename_key_always_present (ids : List String)
    (chunks : List DocumentChunk) (r : StoredRecord)
    (hr : r ∈ add_document_chunks ids chunks) :
    ∃ c ∈ chunks,
      dictGet r.metadata "filename"
        = some (dictGetD c.metadata "filename" (.str "")) := by
  obtain ⟨c, hc, -, hmeta⟩ := mem_add_document_chunks hr
  exact ⟨c, hc, hmeta ▸ prepare_metadata_filename c⟩

/-- **C4 witness**: instantiated at a one-chunk input. -/
theorem c4_filename_key_always_present_witness :
    ∃ c ∈ [(⟨['x'], [("filename", .str "doc.pdf")], none, none⟩ :
        DocumentChunk)],
      dictGet (StoredRecord.mk "w1" ['x'] (prepare_metadata
        ⟨['x'], [("filename", .str "doc.pdf")], none, none⟩)).metadata
        "filename"
        = some (dictGetD c.metadata "filename" (.str "")) :=
  c4_filename_key_always_present ["w1"]
    [⟨['x'], [("filename", .str "doc.pdf")], none, none⟩]
    ⟨"w1", ['x'], prepare_metadata
      ⟨['x'], [("filename", .str "doc.pdf")], none, none⟩⟩
    (by simp [add_document_chunks])

/-- Membership in `get_all_documents`: exactly the filename values of
records that carry the key. -/
theorem mem_get_all_documents {store : List StoredRecord} {v : PyValue} :
    v ∈ get_all_documents store
      ↔ ∃ r ∈ store, dictGet r.metadata "filename" = some v := by
  unfold get_all_documents
  rw [List.mem_mergeSort, List.mem_dedup, List.mem_filterMap]

/-- **C8.** With distinct record ids (Chroma generates unique ids),
`delete_document filename` removes exactly the records whose metadata
`filename` equals the argument, returns their count — `0`, not an
error, when none match — and afterwards `get_all_documents` no longer
contains the filename. -/
theorem c8_delete_document_complete (store : List StoredRecord)
    (filename : String) (hids : (store.map StoredRecord.id).Nodup) :
    (delete_document store filename).2
      = (store.filter (filenameMatches filename)).length ∧
    (delete_document store filename).1
      = store.filter (fun r => ! filenameMatches filename r) ∧
    PyValue.str filename ∉ get_all_documents (delete_document store filename).1 := by
  have hkey : ∀ r ∈ store,
      (r.id ∈ (store.filter (filenameMatches filename)).map (·.id)
        ↔ filenameMatches filename r = true) := by
    intro r hr
    constructor
    · intro hmem
      obtain ⟨m, hm, hmid⟩ := List.mem_map.mp hmem
      have hmstore := List.mem_of_mem_filter hm
      have : m = r := List.inj_on_of_nodup_map hids hmstore hr hmid
      exact this ▸ List.of_mem_filter hm
    · intro hmatch
      exact List.mem_map.mpr ⟨r, List.mem_filter.mpr ⟨hr, hmatch⟩, rfl⟩
  have hmatch_of_get : ∀ r : StoredRecord,
      dictGet r.metadata "filename" = some (.str filename) →
      filenameMatches filename r = true := by
    intro r h
    simpa [filenameMatches] using h
  by_cases hemp : ((store.filter (filenameMatches filename)).map (·.id)).isEmpty
  · have hnil : store.filter (filenameMatches filename) = [] := by
      have := List.isEmpty_iff.mp hemp
      exact List.map_eq_nil_iff.mp this
    have hnomatch : ∀ r ∈ store, ¬ filenameMatches filename r = true := by
      intro r hr hmatch
      have : r ∈ store.filter (filenameMatches filename) :=
        List.mem_filter.mpr ⟨hr, hmatch⟩
      rw [hnil] at this
      exact List.not_mem_nil r this
    have hdel : delete_document store filename = (store, 0) := by
      unfold delete_document
      rw [if_pos hemp]
    refine ⟨?_, ?_, ?_⟩
    · rw [hdel, hnil]
      rfl
    · rw [hdel]
      refine (List.filter_eq_self.mpr ?_).symm
      intro r hr
      simpa using hnomatch r hr
    · rw [hdel]
      intro hmem
      obtain ⟨r, hr, hget⟩ := mem_get_all_documents.mp hmem
      exact hnomatch r hr (hmatch_of_get r hget)
  · have hdel : delete_document store filename
        = (store.filter (fun r =>
            ¬ r.id ∈ (store.filter (filenameMatches filename)).map (·.id)),
          ((store.filter (filenameMatches filename)).map (·.id)).length) := by
      unfold delete_document
      rw [if_neg hemp]
    have hfilter : store.filter (fun r =>
          ¬ r.id ∈ (store.filter (filenameMatches filename)).map (·.id))
        = store.filter (fun r => ! filenameMatches filename r) := by
      apply List.filter_congr
      intro r hr
      have := hkey r hr
      cases hmr : filenameMatches filename r with
      | true => simp [this, hmr]
      | false =>
        have : ¬ r.id ∈ (store.filter (filenameMatches filename)).map (·.id) := by
          intro hm
          rw [hmr] at this
          exact Bool.false_ne_true (this.mp hm)
        simp [this]
    refine ⟨?_, ?_, ?_⟩
    · rw [hdel]
      exact List.length_map _ _
    · rw [hdel, hfilter]
    · rw [hdel, hfilter]
      intro hmem
      obtain ⟨r, hr, hget⟩ := mem_get_all_documents.mp hmem
      have hrs := List.mem_of_mem_filter hr
      have hkept := List.of_mem_filter hr
      have := hmatch_of_get r hget
      simp [this] at hkept

/-- **C8 witness**: a concrete two-document store with distinct ids. -/
theorem c8_delete_document_complete_witness :
    (delete_document
        [⟨"i1", ['a'], [("filename", .str "f1")]⟩,
         ⟨"i2", ['b'], [("filename", .str "f2")]⟩] "f1").2
      = (([⟨"i1", ['a'], [("filename", .str "f1")]⟩,
          ⟨"i2", ['b'], [("filename", .str "f2")]⟩] :
            List StoredRecord).filter (filenameMatches "f1")).length ∧
    (delete_document
        [⟨"i1", ['a'], [("filename", .str "f1")]⟩,
         ⟨"i2", ['b'], [("filename", .str "f2")]⟩] "f1").1
      = ([⟨"i1", ['a'], [("filename", .str "f1")]⟩,
          ⟨"i2", ['b'], [("filename", .str "f2")]⟩] :
            List StoredRecord).filter (fun r => ! filenameMatches "f1" r) ∧
    PyValue.str "f1" ∉ get_all_documents (delete_document
        [⟨"i1", ['a'], [("filename", .str "f1")]⟩,
         ⟨"i2", ['b'], [("filename", .str "f2")]⟩] "f1").1 :=
  c8_delete_document_complete
    [⟨"i1", ['a'], [("filename", .str "f1")]⟩,
     ⟨"i2", ['b'], [("filename", .str "f2")]⟩] "f1" (by decide)

/-- **C2 witness**: at `text = "abcde"`, `chunk_size = 3`, `overlap = 1`. -/
theorem c2_split_text_reconstructs_witness :
    ∃ l, DOCXProcessor.split_text 3 1 ['a', 'b', 'c', 'd', 'e'] = some l ∧
      PDFProcessor.split_text 3 1 ['a', 'b', 'c', 'd', 'e'] = some l ∧
      joinOverlap 1 l = ['a', 'b', 'c', 'd', 'e'] ∧
      (List.length ['a', 'b', 'c', 'd', 'e'] ≤ 3 →
        l = [['a', 'b', 'c', 'd', 'e']]) :=
  c2_split_text_reconstructs ['a', 'b', 'c', 'd', 'e'] 3 1 (by decide)

/-! ### Registry lemmas and C7 -/

theorem find_first_aux {α : Type} (q : α → Bool) :
    ∀ (l : List α) (i : Nat) (hi : i < l.length),
      q (l.get ⟨i, hi⟩) = true →
      (∀ j (hj : j < i), q (l.get ⟨j, by omega⟩) = false) →
      l.find? q = some (l.get ⟨i, hi⟩) := by
  intro l
  induction l with
  | nil => intro i hi; simp at hi
  | cons a l ih =>
    intro i hi hq hfirst
    cases i with
    | zero => simp only [List.get] at hq ⊢; simp [List.find?_cons, hq]
    | succ i =>
      have ha : q a = false := hfirst 0 (Nat.succ_pos i)
      simp only [List.get] at hq ⊢
      rw [List.find?_cons, ha]
      exact ih i (by simpa using hi) hq (fun j hj => hfirst (j + 1) (by omega))

/-- **C7.** `process_document` fails with `FileNotFound` when the path
does not exist, with the not-found `ValueError` when no registered
processor's `can_process` accepts the path, and otherwise delegates to
the first accepting processor in registration order and returns its
output unchanged. -/
theorem c7_process_document_dispatch (fs_exists : DocPath → Bool)
    (processors : List Processor) (p : DocPath) :
    (fs_exists p = false →
      process_document fs_exists processors p = .error .fileNotFound) ∧
    (fs_exists p = true →
      (∀ proc ∈ processors, proc.can_process p = false) →
      process_document fs_exists processors p = .error .noProcessorFound) ∧
    (∀ i (hi : i < processors.length), fs_exists p = true →
      (processors.get ⟨i, hi⟩).can_process p = true →
      (∀ j (hj : j < i), (processors.get ⟨j, by omega⟩).can_process p = false) →
      process_document fs_exists processors p
        = .ok ((processors.get ⟨i, hi⟩).process p)) := by
  refine ⟨?_, ?_, ?_⟩
  · intro h
    simp [process_document, h]
  · intro h hnone
    have : get_processor processors p = none :=
      List.find?_eq_none.mpr (fun proc hproc => by simp [hnone proc hproc])
    simp [process_document, h, this]
  · intro i hi hex hq hfirst
    have : get_processor processors p = some (processors.get ⟨i, hi⟩) :=
      find_first_aux _ processors i hi hq hfirst
    simp [process_document, hex, this]

/-- **C7 witness**: an existing `.pdf` path dispatched past a
non-matching processor to the second registered one. -/
theorem c7_process_document_dispatch_witness :
    process_document (fun _ => true)
      [⟨fun _ => false, fun _ => []⟩,
       ⟨fun _ => true, fun _ => [⟨['t'], [], none, none⟩]⟩]
      ⟨"a.pdf", ".pdf"⟩
      = .ok ((([⟨fun _ => false, fun _ => []⟩,
          ⟨fun _ => true, fun _ => [⟨['t'], [], none, none⟩]⟩] :
            List Processor).get ⟨1, by decide⟩).process ⟨"a.pdf", ".pdf"⟩) :=
  (c7_process_document_dispatch (fun _ => true)
    [⟨fun _ => false, fun _ => []⟩,
     ⟨fun _ => true, fun _ => [⟨['t'], [], none, none⟩]⟩]
    ⟨"a.pdf", ".pdf"⟩).2.2 1 (by decide) rfl rfl
    (fun j hj => by
      have hj0 : j = 0 := by omega
      subst hj0
      rfl)

/-! ### QA lemmas and C5, C6, C9, C10 -/

/-- **C6.** With an empty search result, `answer_question` returns the
fixed no-information answer with empty sources and empty context, makes
zero completion calls, and its output does not depend on the completion
capability at all. -/
theorem c6_empty_search_no_model_call (llm llm2 : List Char → List Char)
    (question : List Char) :
    answer_question llm question [] =
      ({ answer := "I don\x27t have any relevant information in the knowledge base to answer this question.".toList,
         sources := [], context_used := [] }, 0) ∧
    answer_question llm question [] = answer_question llm2 question [] :=
  ⟨rfl, rfl⟩

/-- **C5 counterexample.** A retrieved chunk of 201 characters yields a
`context_used` entry of 203 characters (200-character prefix plus the
three-character ellipsis), contradicting "at most 200 characters". -/
theorem c5_excerpt_length_counterexample :
    ∃ s ∈ (answer_question (fun prompt => prompt) []
        [⟨List.replicate 201 'a', []⟩]).1.context_used,
      200 < s.length := by
  have hctx : (answer_question (fun prompt => prompt) []
      [⟨List.replicate 201 'a', []⟩]).1.context_used
      = [truncate_excerpt (List.replicate 201 'a')] := rfl
  refine ⟨truncate_excerpt (List.replicate 201 'a'), ?_, ?_⟩
  · rw [hctx]
    exact List.mem_singleton.mpr rfl
  · have hlen : (List.replicate 201 'a').length = 201 :=
      List.length_replicate ..
    have hcond : 200 < (List.replicate 201 'a').length := by
      rw [hlen]
      omega
    have hexp : truncate_excerpt (List.replicate 201 'a')
        = List.take 200 (List.replicate 201 'a') ++ "...".toList := by
      rw [truncate_excerpt, if_pos hcond]
    have h3 : ("...".toList).length = 3 := rfl
    rw [hexp, List.length_append, List.length_take, hlen, h3]
    omega

/-- **C5 (amended).** Every `context_used` entry is the retrieved
content itself when it has at most 200 characters, and otherwise its
first 200 characters followed by `"..."`; hence every entry has at most
203 (not 200) characters. -/
theorem c5_context_used_is_truncated_excerpt (llm : List Char → List Char)
    (question : List Char) (results : List SearchResult) (s : List Char)
    (hs : s ∈ (answer_question llm question results).1.context_used) :
    s.length ≤ 203 ∧ ∃ r ∈ results,
      ((r.content.length ≤ 200 ∧ s = r.content) ∨
       (200 < r.content.length ∧ s = r.content.take 200 ++ "...".toList)) := by
  cases results with
  | nil => simp [answer_question] at hs
  | cons r0 rs =>
    have hctx : (answer_question llm question (r0 :: rs)).1.context_used
        = (r0 :: rs).map (fun r => truncate_excerpt r.content) := rfl
    rw [hctx] at hs
    obtain ⟨r, hr, hsr⟩ := List.mem_map.mp hs
    subst hsr
    unfold truncate_excerpt
    by_cases hlen : 200 < r.content.length
    · rw [if_pos hlen]
      refine ⟨?_, r, hr, Or.inr ⟨hlen, rfl⟩⟩
      have h3 : ("...".toList).length = 3 := rfl
      have hmin : 200 ⊓ r.content.length = 200 := min_eq_left (by omega)
      simp [List.length_append, List.length_take, h3, hmin]
    · rw [if_neg hlen]
      exact ⟨by omega, r, hr, Or.inl ⟨by omega, rfl⟩⟩

/-- **C5 witness**: a one-result retrieval with a short chunk. -/
theorem c5_context_used_is_truncated_excerpt_witness :
    (['a'] : List Char).length ≤ 203 ∧
    ∃ r ∈ [(⟨['a'], []⟩ : SearchResult)],
      ((r.content.length ≤ 200 ∧ ['a'] = r.content) ∨
       (200 < r.content.length ∧
        ['a'] = r.content.take 200 ++ "...".toList)) :=
  c5_context_used_is_truncated_excerpt (fun prompt => prompt) []
    [⟨['a'], []⟩] ['a'] (by decide)

/-- The insight-parsing loop equals the claimed filter/map pipeline with
one extra step: insights that are empty after marker stripping are
dropped. -/
theorem extract_insights_lines_eq (ls : List (List Char)) :
    extract_insights_lines ls
      = (((ls.map pyStrip).filter isInsightMarkerLine).map
          strip_insight_marker).filter (fun i => ! i.isEmpty) := by
  induction ls with
  | nil => rfl
  | cons l ls ih =>
    by_cases hm : isInsightMarkerLine (pyStrip l) = true
    · by_cases he : (strip_insight_marker (pyStrip l)).isEmpty = true
      · simp [extract_insights_lines, hm, he, ih]
      · simp [extract_insights_lines, hm, he, ih]
    · simp [extract_insights_lines, hm, ih]

/-- **C9 counterexample.** On the response `"- \n- hi"` the source
parser returns only `["hi"]`, while the claim ("exactly the marker
lines, marker stripped") would also keep the first line, which strips
to the empty string. -/
theorem c9_marker_only_line_counterexample :
    extract_insights_parse "- \n- hi".toList 10
        ≠ spec_extract_insights "- \n- hi".toList 10 ∧
    extract_insights_parse "- \n- hi".toList 10 = ["hi".toList] ∧
    spec_extract_insights "- \n- hi".toList 10 = [[], "hi".toList] := by
  refine ⟨?_, ?_, ?_⟩ <;> decide

/-- **C9 (amended).** `extract_insights` returns the lines beginning
with a digit, `-` or `•`, marker stripped, in line order, except that
lines whose residue after stripping is empty are also dropped; the
result is truncated to at most `max_insights` elements. -/
theorem c9_extract_insights_parse_characterised (response : List Char)
    (max_insights : Nat) :
    extract_insights_parse response max_insights
      = (((((split_lines response).map pyStrip).filter
          isInsightMarkerLine).map strip_insight_marker).filter
          (fun i => ! i.isEmpty)).take max_insights ∧
    (extract_insights_parse response max_insights).length ≤ max_insights := by
  constructor
  · unfold extract_insights_parse
    rw [extract_insights_lines_eq]
  · calc (extract_insights_parse response max_insights).length
        = max_insights ⊓ (extract_insights_lines (split_lines response)).length :=
          List.length_take _ _
      _ ≤ max_insights := min_le_left _ _

/-! ### Lemmas for the test-case parser and C10 -/

theorem split_lines_ne_nil (cs : List Char) : split_lines cs ≠ [] := by
  induction cs with
  | nil => simp [split_lines]
  | cons c cs ih =>
    by_cases h : c = '\n'
    · simp [split_lines, h]
    · simp only [split_lines, if_neg h]
      cases hsl : split_lines cs with
      | nil => simp
      | cons l ls => simp

/-- Segments produced by `split_lines` never contain a newline. -/
theorem newline_not_mem_split_lines (cs : List Char) :
    ∀ l ∈ split_lines cs, ¬ '\n' ∈ l := by
  induction cs with
  | nil =>
    intro l hl
    simp only [split_lines, List.mem_singleton] at hl
    simp [hl]
  | cons c cs ih =>
    intro l hl
    by_cases h : c = '\n'
    · simp only [split_lines, if_pos h, List.mem_cons] at hl
      rcases hl with rfl | hl
      · simp
      · exact ih l hl
    · simp only [split_lines, if_neg h] at hl
      cases hsl : split_lines cs with
      | nil => exact absurd hsl (split_lines_ne_nil cs)
      | cons m ms =>
        rw [hsl] at hl
        rcases List.mem_cons.mp hl with rfl | hl2
        · intro hmem
          rcases List.mem_cons.mp hmem with heq | hmem2
          · exact h heq.symm
          · exact ih m (hsl ▸ List.mem_cons_self ..) hmem2
        · exact ih l (hsl ▸ List.mem_cons_of_mem _ hl2)

/-- `pyStrip` only removes characters. -/
theorem mem_pyStrip {a : Char} {s : List Char} (h : a ∈ pyStrip s) :
    a ∈ s := by
  unfold pyStrip at h
  rw [List.mem_reverse] at h
  have h2 := (List.dropWhile_sublist _).subset h
  rw [List.mem_reverse] at h2
  exact (List.dropWhile_sublist _).subset h2

theorem takeWhile_append_cons {p : Char → Bool} {c : Char}
    (hc : p c = false) (t l : List Char) :
    (t ++ c :: l).takeWhile p = t.takeWhile p := by
  induction t with
  | nil => simp [List.takeWhile_cons, hc]
  | cons a t ih => by_cases ha : p a <;> simp [List.takeWhile_cons, ha, ih]

theorem first_line_eq_self {l : List Char} (h : ¬ '\n' ∈ l) :
    first_line l = l := by
  unfold first_line
  induction l with
  | nil => rfl
  | cons c l ih =>
    simp only [List.mem_cons, not_or] at h
    have hc : ¬ c = '\n' := fun hcc => h.1 hcc.symm
    have hcb : (fun ch => decide (ch ≠ '\n')) c = true := by
      simp [hc]
    rw [List.takeWhile_cons, if_pos hcb, ih h.2]

/-- Every record emitted by the accumulation loop starts with a marker
line, provided the pending record does and the lines are
newline-free. -/
theorem generate_tests_go_first_line :
    ∀ (lines : List (List Char)) (cur : Option (List Char)),
      (∀ l ∈ lines, ¬ '\n' ∈ l) →
      (∀ t, cur = some t → isTestMarkerLine (first_line t) = true) →
      ∀ t ∈ generate_tests_go cur lines,
        isTestMarkerLine (first_line t) = true := by
  intro lines
  induction lines with
  | nil =>
    intro cur hnl hcur t ht
    cases cur with
    | some c =>
      simp only [generate_tests_go, List.mem_singleton] at ht
      exact ht ▸ hcur c rfl
    | none => simp [generate_tests_go] at ht
  | cons l ls ih =>
    intro cur hnl hcur t ht
    have hlnl : ¬ '\n' ∈ l := hnl l (List.mem_cons_self ..)
    have hstrip_nl : ¬ '\n' ∈ pyStrip l := fun hm => hlnl (mem_pyStrip hm)
    have hls : ∀ l2 ∈ ls, ¬ '\n' ∈ l2 :=
      fun l2 hl2 => hnl l2 (List.mem_cons_of_mem _ hl2)
    by_cases hm : isTestMarkerLine (pyStrip l) = true
    · have hnewcur : ∀ t2, (some (pyStrip l) : Option (List Char)) = some t2 →
          isTestMarkerLine (first_line t2) = true := by
        intro t2 ht2
        injection ht2 with ht2
        rw [← ht2, first_line_eq_self hstrip_nl]
        exact hm
      cases cur with
      | some tcur =>
        have heq : generate_tests_go (some tcur) (l :: ls)
            = tcur :: generate_tests_go (some (pyStrip l)) ls := by
          simp [generate_tests_go, hm]
        rw [heq] at ht
        rcases List.mem_cons.mp ht with rfl | ht2
        · exact hcur t rfl
        · exact ih (some (pyStrip l)) hls hnewcur t ht2
      | none =>
        have heq : generate_tests_go none (l :: ls)
            = generate_tests_go (some (pyStrip l)) ls := by
          simp [generate_tests_go, hm]
        rw [heq] at ht
        exact ih (some (pyStrip l)) hls hnewcur t ht
    · cases cur with
      | some tcur =>
        have heq : generate_tests_go (some tcur) (l :: ls)
            = generate_tests_go (some (tcur ++ '\n' :: pyStrip l)) ls := by
          simp [generate_tests_go, hm]
        rw [heq] at ht
        refine ih (some (tcur ++ '\n' :: pyStrip l)) hls ?_ t ht
        intro t2 ht2
        injection ht2 with ht2
        rw [← ht2]
        unfold first_line
        rw [takeWhile_append_cons (by simp) tcur (pyStrip l)]
        exact hcur tcur rfl
      | none =>
        have heq : generate_tests_go none (l :: ls)
            = generate_tests_go none ls := by
          simp [generate_tests_go, hm]
        rw [heq] at ht
        exact ih none hls hcur t ht

/-- Before the first marker line, the loop's state stays the empty
`current_test`, so leading non-marker lines are simply skipped. -/
theorem generate_tests_go_none_dropWhile (lines : List (List Char)) :
    generate_tests_go none lines
      = generate_tests_go none
          (lines.dropWhile (fun l => ! isTestMarkerLine (pyStrip l))) := by
  induction lines with
  | nil => rfl
  | cons l ls ih =>
    by_cases hm : isTestMarkerLine (pyStrip l) = true
    · simp [List.dropWhile_cons, hm]
    · have h1 : generate_tests_go none (l :: ls)
          = generate_tests_go none ls := by
        simp [generate_tests_go, hm]
      have h2 : (l :: ls).dropWhile (fun l => ! isTestMarkerLine (pyStrip l))
          = ls.dropWhile (fun l => ! isTestMarkerLine (pyStrip l)) := by
        simp [List.dropWhile_cons, hm]
      calc generate_tests_go none (l :: ls)
          = generate_tests_go none ls := h1
        _ = generate_tests_go none
            (ls.dropWhile (fun l => ! isTestMarkerLine (pyStrip l))) := ih
        _ = generate_tests_go none
            ((l :: ls).dropWhile (fun l => ! isTestMarkerLine (pyStrip l))) := by
          rw [h2]

/-- **C10.** Every record returned by the `generate_tests` parse has a
`full_text` whose first line contains the `"Test ID"` or `"Test Case"`
marker, and the parse of a response equals the parse of the line-suffix
starting at the first marker line: lines before the first marker never
enter any record. -/
theorem c10_generate_tests_records (response : List Char) :
    (∀ t ∈ generate_tests_parse response,
      isTestMarkerLine (first_line t) = true) ∧
    generate_tests_parse response
      = generate_tests_go none ((split_lines response).dropWhile
          (fun l => ! isTestMarkerLine (pyStrip l))) := by
  constructor
  · exact generate_tests_go_first_line (split_lines response) none
      (newline_not_mem_split_lines response)
      (fun t ht => Option.noConfusion ht)
  · exact generate_tests_go_none_dropWhile (split_lines response)

/-- **C10 witness**: the record parsed from
`"junk\nTest ID: 1\nstep"` starts with the marker line. -/
theorem c10_generate_tests_records_witness :
    isTestMarkerLine
      (first_line ("Test ID: 1".toList ++ '\n' :: "step".toList)) = true :=
  (c10_generate_tests_records "junk\nTest ID: 1\nstep".toList).1
    ("Test ID: 1".toList ++ '\n' :: "step".toList) (by decide)

end Knowledgebase
